import Mathlib

/-!
Shallow embedding of the payments engine (`src/main.rs`): data model,
transaction processing, the whole-run engine loop, output projection, and
the decimal decoding of input records.  The development closes with one
theorem per specification claim.
-/

/-- Type `Amount` is `fixed::types::I50F14`: a signed 64-bit binary fixed-point
number with 14 fractional bits whose raw representation is the real value
times `2 ^ 14`.  We model the raw scaled value as an integer: the
engine's `+=`, `-=` and comparisons on `I50F14` are integer operations
on the raw value, which on overflow wrap into the 64-bit range in
release builds (debug builds panic).  Wrapping is modelled explicitly by
`wrap64` and the wrapped transition `process_transaction_wrap` below;
the statements that quantify over arithmetic results an input stream can
push past the raw range are made about the wrapped transition, while the
remaining statements are invariant under wrapping. -/
abbrev Amount : Type := Int

/-- Type `ClientId` is `u16`; the engine's account table is a `Vec` of
`1 << 16` accounts indexed by client id, modelled as a total function
out of `Fin (2 ^ 16)`. -/
abbrev ClientId : Type := Fin (2 ^ 16)

/-- Type `TransactionId` is `u32`; transaction ids only serve as lookup keys,
so we model them as naturals (the record decoder enforces the `u32`
bound). -/
abbrev TransactionId : Type := Nat

/-- The five lowercase transaction kinds of the input format. -/
inductive TransactionType where
  | Deposit
  | Withdrawal
  | Dispute
  | Resolve
  | Chargeback
  deriving DecidableEq

/-- One decoded input record `{type, client, tx, amount}`.  The `amount`
field is not `Option`al in the source: every row must carry a parsable
amount string. -/
structure Transaction where
  tx_type : TransactionType
  client : ClientId
  tx : TransactionId
  amount : Amount
  deriving DecidableEq

/-- Working account state, exactly the fields of the source struct
(`locked`, `total`, `held`; `available` is derived). -/
structure Account where
  locked : Bool
  total : Amount
  held : Amount
  deriving DecidableEq

/-- Default account `Account::default()`: all-zero, unlocked. -/
def defaultAccount : Account := { locked := false, total := 0, held := 0 }

instance : Inhabited Account := ⟨defaultAccount⟩

/-- Derived balance `Account::available`: `total - held`, computed on demand, never stored. -/
def Account.available (a : Account) : Amount := a.total - a.held

/-- Predicate `Account::unused`: structural equality with the default account. -/
def Account.unused (a : Account) : Bool := decide (a = defaultAccount)

/-- Output row serialized per touched account. -/
structure OutputRecord where
  client : ClientId
  available : Amount
  held : Amount
  total : Amount
  locked : Bool
  deriving DecidableEq

/-- Projection `OutputRecord::from_account`. -/
def OutputRecord.from_account (account : Account) (client : ClientId) : OutputRecord :=
  { client := client
    available := account.available
    held := account.held
    locked := account.locked
    total := account.total }

/-- Type `TransactionHistory = HashMap<TransactionId, Amount>`, modelled as an
association list (it is only ever read through `get`, so the association
list's `lookup` is a faithful model of `HashMap::get`). -/
abbrev TransactionHistory : Type := List (TransactionId × Amount)

/-- Lookup `get_tx_amount`: `history.get(id).copied()`. -/
def get_tx_amount (history : TransactionHistory) (id : TransactionId) : Option Amount :=
  history.lookup id

/-- Core transition `process_transaction`: apply one record to the account table, using
the supplied closure to resolve historical deposit amounts.  A direct
transcription of the `match` in the source. -/
def process_transaction (accounts : ClientId → Account) (record : Transaction)
    (get_tx_amount : TransactionId → Option Amount) : ClientId → Account :=
  let account := accounts record.client
  match record.tx_type with
  | .Deposit =>
      Function.update accounts record.client
        { account with total := account.total + record.amount }
  | .Withdrawal =>
      if account.available ≥ record.amount then
        Function.update accounts record.client
          { account with total := account.total - record.amount }
      else
        accounts
  | .Dispute =>
      match get_tx_amount record.tx with
      | some amount =>
          Function.update accounts record.client
            { account with held := account.held + amount }
      | none => accounts
  | .Resolve =>
      match get_tx_amount record.tx with
      | some amount =>
          Function.update accounts record.client
            { account with held := account.held - amount }
      | none => accounts
  | .Chargeback =>
      match get_tx_amount record.tx with
      | some amount =>
          Function.update accounts record.client
            { account with
                held := account.held - amount
                total := account.total - amount
                locked := true }
      | none => accounts

/-- Two's-complement wrap of a raw value into the 64-bit range
`[-2 ^ 63, 2 ^ 63)` — the release-mode overflow behavior of `I50F14`
arithmetic. -/
def wrap64 (x : Int) : Int := (x + 2 ^ 63) % 2 ^ 64 - 2 ^ 63

/-- Wrapped variant of `Account::available`: `total - held` computed in
the raw 64-bit arithmetic of `I50F14`. -/
def Account.available_wrap (a : Account) : Amount := wrap64 (a.total - a.held)

/-- Wrapped variant of `process_transaction`: the same `match`, with
every `I50F14` addition and subtraction wrapped into the raw 64-bit
range — the release-mode overflow semantics of the source (debug builds
panic instead).  It agrees with `process_transaction` whenever no
operation leaves the raw range. -/
def process_transaction_wrap (accounts : ClientId → Account) (record : Transaction)
    (get_tx_amount : TransactionId → Option Amount) : ClientId → Account :=
  let account := accounts record.client
  match record.tx_type with
  | .Deposit =>
      Function.update accounts record.client
        { account with total := wrap64 (account.total + record.amount) }
  | .Withdrawal =>
      if account.available_wrap ≥ record.amount then
        Function.update accounts record.client
          { account with total := wrap64 (account.total - record.amount) }
      else
        accounts
  | .Dispute =>
      match get_tx_amount record.tx with
      | some amount =>
          Function.update accounts record.client
            { account with held := wrap64 (account.held + amount) }
      | none => accounts
  | .Resolve =>
      match get_tx_amount record.tx with
      | some amount =>
          Function.update accounts record.client
            { account with held := wrap64 (account.held - amount) }
      | none => accounts
  | .Chargeback =>
      match get_tx_amount record.tx with
      | some amount =>
          Function.update accounts record.client
            { account with
                held := wrap64 (account.held - amount)
                total := wrap64 (account.total - amount)
                locked := true }
      | none => accounts

/-- The engine: transaction history plus the account table. -/
structure Engine where
  txs : TransactionHistory
  accounts : ClientId → Account

/-- Constructor `Engine::new()`: empty history, `2 ^ 16` default accounts. -/
def Engine.new : Engine :=
  { txs := [], accounts := fun _ => defaultAccount }

/-- One iteration of the record loop in `main`: the engine processes the
record with `process_transaction`, resolving amounts through a closure
over its own (never-written) history map. -/
def stepEngine (e : Engine) (record : Transaction) : Engine :=
  { e with
      accounts := process_transaction e.accounts record (fun id => get_tx_amount e.txs id) }

/-- The record loop of `main`, started from an arbitrary engine state. -/
def runFrom (records : List Transaction) (e : Engine) : Engine :=
  records.foldl stepEngine e

/-- The whole record loop of `main`: fold the decoded records over a
fresh engine. -/
def runEngine (records : List Transaction) : Engine :=
  runFrom records Engine.new

/-- The output loop of `main`: enumerate the account table in index
order, skip unused accounts, and serialize the rest. -/
def outputRecords (e : Engine) : List OutputRecord :=
  (List.finRange (2 ^ 16)).filterMap fun client =>
    if (e.accounts client).unused then none
    else some (OutputRecord.from_account (e.accounts client) client)

/-!  Decoding of input records (`deserialize_fixed` and the serde field
decoders used by `Transaction`). -/

/-- Value of one ASCII digit, or `none`. -/
def digitVal (c : Char) : Option Nat :=
  if c.isDigit then some (c.toNat - 48) else none

/-- Value of a digit string; fails when any character is not a digit.
An empty list yields `0` (callers check for missing digits). -/
def digitsVal (cs : List Char) : Option Nat :=
  cs.foldl
    (fun acc c => do
      let n ← acc
      let d ← digitVal c
      pure (10 * n + d))
    (some 0)

/-- Round `a / b` to the nearest integer, ties to even — the rounding
`fixed`'s `from_str` applies when a decimal string has more precision
than the 14 fractional bits can hold. -/
def roundHalfEven (a b : Nat) : Nat :=
  let q := a / b
  let r := a % b
  if 2 * r < b then q
  else if b < 2 * r then q + 1
  else if q % 2 = 0 then q else q + 1

/-- Number of fractional bits of `I50F14`. -/
def fracBits : Nat := 14

/-- Split a character list at the first decimal point, if any.  Any
second point is left inside the fractional part, where the digit scan
rejects it (matching the `TooManyPoints` parse error of `fixed`). -/
def breakAtDot : List Char → List Char × Option (List Char)
  | [] => ([], none)
  | c :: rest =>
      if c = '.' then ([], some rest)
      else
        let (intPart, fracPart) := breakAtDot rest
        (c :: intPart, fracPart)

/-- Magnitude of `fixed`'s decimal `from_str`, as a scaled natural:
the digits around an optional single point, rounded to the nearest
multiple of `2 ^ -14` with ties to even.  Fails when there is no digit
at all (so in particular on the empty string). -/
def parseUnsignedScaled (cs : List Char) : Option Nat :=
  let (intPart, fracPart) := breakAtDot cs
  let frac := fracPart.getD []
  if intPart = [] ∧ frac = [] then none
  else do
    let n ← digitsVal (intPart ++ frac)
    pure (roundHalfEven (n * 2 ^ fracBits) (10 ^ frac.length))

/-- Decimal decode `Amount::from_str` as used by `deserialize_fixed`: optional sign,
decimal magnitude, overflow check against the raw `i64` range of
`I50F14`. -/
def parseAmount (s : String) : Option Amount :=
  match s.toList with
  | '-' :: rest => do
      let n ← parseUnsignedScaled rest
      if n ≤ 2 ^ 63 then pure (-(n : Int)) else none
  | '+' :: rest => do
      let n ← parseUnsignedScaled rest
      if n < 2 ^ 63 then pure ((n : Int)) else none
  | cs => do
      let n ← parseUnsignedScaled cs
      if n < 2 ^ 63 then pure ((n : Int)) else none

/-- Decimal decoding of an unsigned integer field, bounded by the
width of its Rust type (`u16` for `client`, `u32` for `tx`). -/
def parseBoundedNat (s : String) (bound : Nat) : Option Nat :=
  let cs := match s.toList with
    | '+' :: rest => rest
    | cs => cs
  if cs = [] then none
  else do
    let n ← digitsVal cs
    if n < bound then pure n else none

/-- Decode the `client` field (`u16`). -/
def parseClientId (s : String) : Option ClientId := do
  let n ← parseBoundedNat s (2 ^ 16)
  if h : n < 2 ^ 16 then pure ⟨n, h⟩ else none

/-- Decode the `tx` field (`u32`). -/
def parseTransactionId (s : String) : Option TransactionId :=
  parseBoundedNat s (2 ^ 32)

/-- Decode the `type` field: one of the five lowercase tokens. -/
def parseTransactionType (s : String) : Option TransactionType :=
  if s = "deposit" then some .Deposit
  else if s = "withdrawal" then some .Withdrawal
  else if s = "dispute" then some .Dispute
  else if s = "resolve" then some .Resolve
  else if s = "chargeback" then some .Chargeback
  else none

/-- Decode one (already field-split, whitespace-trimmed) input row into a
`Transaction`, exactly as serde drives the four field decoders; any field
failure fails the row. -/
def parseTransaction (ty client tx amount : String) : Option Transaction := do
  let t ← parseTransactionType ty
  let c ← parseClientId client
  let x ← parseTransactionId tx
  let a ← parseAmount amount
  pure { tx_type := t, client := c, tx := x, amount := a }

/-- The whole program on already field-split rows: decode every row
(`main` aborts the run on the first decoding error, producing no output
rows), run the engine over the decoded records, and emit the output
projection. -/
def runProgram (rows : List (String × String × String × String)) :
    Option (List OutputRecord) := do
  let records ← rows.mapM fun row => parseTransaction row.1 row.2.1 row.2.2.1 row.2.2.2
  pure (outputRecords (runEngine records))

/-!  Concrete inputs shared by several theorems below. -/

/-- Client id 1. -/
def client1 : ClientId := ⟨1, by norm_num⟩

/-- Client id 2. -/
def client2 : ClientId := ⟨2, by norm_num⟩

/-- The decoded record `deposit,1,1,10.0` (`10.0` scales to `163840`). -/
def depositTen : Transaction :=
  { tx_type := .Deposit, client := client1, tx := 1, amount := 163840 }

/-- The decoded record `dispute,1,1,0` (the amount field of a dispute is
ignored by the engine). -/
def disputeOne : Transaction :=
  { tx_type := .Dispute, client := client1, tx := 1, amount := 0 }

/-- The decoded record `chargeback,1,1,0`. -/
def chargebackOne : Transaction :=
  { tx_type := .Chargeback, client := client1, tx := 1, amount := 0 }

/-- The decoded records of the spec's deposit/dispute/chargeback
end-to-end scenario. -/
def c3Records : List Transaction := [depositTen, disputeOne, chargebackOne]

/-- The raw rows of the spec's deposit/dispute/chargeback end-to-end
scenario, fields as written: `deposit,1,1,10.0 / dispute,1,1, /
chargeback,1,1,`. -/
def c3Rows : List (String × String × String × String) :=
  [("deposit", "1", "1", "10.0"), ("dispute", "1", "1", ""), ("chargeback", "1", "1", "")]

/-- An account table holding `5` raw units in the account of client 1
and default accounts everywhere else. -/
def accountsFive : ClientId → Account :=
  Function.update (fun _ => defaultAccount) client1 { locked := false, total := 5, held := 0 }

/-- An account table holding raw `2 ^ 62` (the decodable value `2 ^ 48`)
in the account of client 1 and default accounts everywhere else — the
state after a single such deposit. -/
def accountsBig : ClientId → Account :=
  Function.update (fun _ => defaultAccount) client1
    { locked := false, total := 2 ^ 62, held := 0 }

/-- A withdrawal of the decodable value `-2 ^ 48` (raw `-2 ^ 62`) by
client 1. -/
def withdrawNegBig : Transaction :=
  { tx_type := .Withdrawal, client := client1, tx := 7, amount := -(2 ^ 62) }

/-!  Helper lemmas about the engine loop and the output projection. -/

theorem runFrom_nil (e : Engine) : runFrom [] e = e := rfl

theorem runFrom_cons (r : Transaction) (rs : List Transaction) (e : Engine) :
    runFrom (r :: rs) e = runFrom rs (stepEngine e r) := rfl

theorem stepEngine_txs (e : Engine) (r : Transaction) : (stepEngine e r).txs = e.txs := rfl

/-- Nothing in the record loop ever writes the history map. -/
theorem runFrom_txs (rs : List Transaction) (e : Engine) : (runFrom rs e).txs = e.txs := by
  induction rs generalizing e with
  | nil => rfl
  | cons r rs ih => rw [runFrom_cons, ih, stepEngine_txs]

/-- A record only ever touches the account slot of its own client. -/
theorem process_transaction_client_ne (accounts : ClientId → Account) (record : Transaction)
    (lookup : TransactionId → Option Amount) {c : ClientId} (h : record.client ≠ c) :
    process_transaction accounts record lookup c = accounts c := by
  obtain ⟨ty, client, tx, amount⟩ := record
  replace h : client ≠ c := h
  cases ty with
  | Deposit => exact Function.update_noteq (Ne.symm h) _ _
  | Withdrawal =>
      unfold process_transaction
      dsimp only
      split
      · exact Function.update_noteq (Ne.symm h) _ _
      · rfl
  | Dispute =>
      unfold process_transaction
      dsimp only
      cases lookup tx with
      | some amount => exact Function.update_noteq (Ne.symm h) _ _
      | none => rfl
  | Resolve =>
      unfold process_transaction
      dsimp only
      cases lookup tx with
      | some amount => exact Function.update_noteq (Ne.symm h) _ _
      | none => rfl
  | Chargeback =>
      unfold process_transaction
      dsimp only
      cases lookup tx with
      | some amount => exact Function.update_noteq (Ne.symm h) _ _
      | none => rfl

theorem stepEngine_client_ne (e : Engine) (r : Transaction) {c : ClientId}
    (h : r.client ≠ c) : (stepEngine e r).accounts c = e.accounts c :=
  process_transaction_client_ne _ _ _ h

/-- A client never referenced by the stream keeps its account unchanged. -/
theorem runFrom_client_ne (rs : List Transaction) (e : Engine) {c : ClientId}
    (h : ∀ r ∈ rs, r.client ≠ c) : (runFrom rs e).accounts c = e.accounts c := by
  induction rs generalizing e with
  | nil => rfl
  | cons r rs ih =>
      rw [runFrom_cons, ih _ (fun r' hr' => h r' (List.mem_cons_of_mem _ hr')),
        stepEngine_client_ne _ _ (h r (List.mem_cons_self _ _))]

/-- Membership in the output projection, characterized. -/
theorem mem_outputRecords {e : Engine} {rec : OutputRecord} :
    rec ∈ outputRecords e ↔
      ∃ c : ClientId, (e.accounts c).unused = false
        ∧ rec = OutputRecord.from_account (e.accounts c) c := by
  unfold outputRecords
  rw [List.mem_filterMap]
  constructor
  · rintro ⟨c, -, hc⟩
    cases hu : (e.accounts c).unused with
    | true =>
        rw [if_pos hu] at hc
        exact absurd hc (by simp)
    | false =>
        rw [if_neg (by simp [hu])] at hc
        exact ⟨c, hu, (Option.some_inj.mp hc).symm⟩
  · rintro ⟨c, h1, rfl⟩
    refine ⟨c, List.mem_finRange c, ?_⟩
    rw [if_neg (by simp [h1])]

/-- A `filterMap` over a list that hits exactly once produces a
singleton. -/
theorem filterMap_eq_single {α β : Type} [DecidableEq α] (f : α → Option β) (l : List α)
    (a : α) (v : β) (hcount : l.count a = 1) (ha : f a = some v)
    (h : ∀ x ∈ l, x ≠ a → f x = none) : l.filterMap f = [v] := by
  induction l with
  | nil => simp at hcount
  | cons x xs ih =>
      by_cases hx : x = a
      · subst hx
        rw [List.count_cons_self] at hcount
        have hxs : xs.count x = 0 := by omega
        have hnone : ∀ y ∈ xs, f y = none := fun y hy =>
          h y (List.mem_cons_of_mem _ hy)
            (fun hyx => (List.count_eq_zero.mp hxs) (hyx ▸ hy))
        rw [List.filterMap_cons, ha, List.filterMap_eq_nil_iff.mpr hnone]
      · rw [List.count_cons_of_ne (Ne.symm hx)] at hcount
        rw [List.filterMap_cons, h x (List.mem_cons_self _ _) hx]
        exact ih hcount (fun y hy => h y (List.mem_cons_of_mem _ hy))

/-- When exactly one account is in use, the output is that one row. -/
theorem outputRecords_single (e : Engine) (c : ClientId)
    (hc : (e.accounts c).unused = false)
    (h : ∀ c' : ClientId, c' ≠ c → (e.accounts c').unused = true) :
    outputRecords e = [OutputRecord.from_account (e.accounts c) c] := by
  unfold outputRecords
  refine filterMap_eq_single _ _ c _
    (List.count_eq_one_of_mem (List.nodup_finRange _) (List.mem_finRange c)) ?_ ?_
  · rw [if_neg (by rw [hc]; exact Bool.false_ne_true)]
  · intro x _ hx
    rw [if_pos (h x hx)]

/-- A dispute, resolve, or chargeback whose transaction id the lookup
does not know leaves the whole account table untouched. -/
theorem process_transaction_no_history (accounts : ClientId → Account) (record : Transaction)
    (hty : record.tx_type = .Dispute ∨ record.tx_type = .Resolve ∨ record.tx_type = .Chargeback)
    (lookup : TransactionId → Option Amount) (hl : lookup record.tx = none) :
    process_transaction accounts record lookup = accounts := by
  obtain ⟨ty, client, tx, amount⟩ := record
  replace hl : lookup tx = none := hl
  rcases hty with h | h | h <;> (replace h : ty = _ := h) <;> subst h <;>
    · unfold process_transaction
      dsimp only
      rw [hl]

/-- One engine step preserves "all held balances zero and no account
locked" as long as the history map is empty. -/
theorem stepEngine_heldLocked (e : Engine) (r : Transaction) (htxs : e.txs = [])
    (h : ∀ c : ClientId, (e.accounts c).held = 0 ∧ (e.accounts c).locked = false)
    (c : ClientId) :
    ((stepEngine e r).accounts c).held = 0 ∧ ((stepEngine e r).accounts c).locked = false := by
  by_cases hc : r.client = c
  · obtain ⟨ty, client, tx, amount⟩ := r
    replace hc : client = c := hc
    subst hc
    cases ty with
    | Deposit =>
        simpa [stepEngine, process_transaction, Function.update_same] using h client
    | Withdrawal =>
        simp only [stepEngine, process_transaction, Account.available]
        split
        · simpa [Function.update_same] using h client
        · exact h client
    | Dispute =>
        simpa [stepEngine, process_transaction, get_tx_amount, htxs] using h client
    | Resolve =>
        simpa [stepEngine, process_transaction, get_tx_amount, htxs] using h client
    | Chargeback =>
        simpa [stepEngine, process_transaction, get_tx_amount, htxs] using h client
  · rw [stepEngine_client_ne e r hc]
    exact h c

/-- Along any run started from an empty history, every account keeps a
zero held balance and stays unlocked. -/
theorem runFrom_heldLocked (rs : List Transaction) (e : Engine) (htxs : e.txs = [])
    (h : ∀ c : ClientId, (e.accounts c).held = 0 ∧ (e.accounts c).locked = false) :
    ∀ c : ClientId,
      ((runFrom rs e).accounts c).held = 0 ∧ ((runFrom rs e).accounts c).locked = false := by
  induction rs generalizing e with
  | nil => exact h
  | cons r rs ih =>
      rw [runFrom_cons]
      exact ih (stepEngine e r) (by rw [stepEngine_txs]; exact htxs)
        (stepEngine_heldLocked e r htxs h)

/-!  The claim theorems. -/

/-- Claim C2: for every input stream the history map `Engine.txs` stays
empty for the entire run — no code path inserts into it — so at
whole-program level every dispute, resolve, and chargeback leaves the
account table unchanged, and every emitted output row has a zero held
balance and an unlocked flag. -/
theorem C2_history_never_written (rs : List Transaction) :
    (runEngine rs).txs = []
    ∧ (∀ r : Transaction,
        r.tx_type = .Dispute ∨ r.tx_type = .Resolve ∨ r.tx_type = .Chargeback →
        (stepEngine (runEngine rs) r).accounts = (runEngine rs).accounts)
    ∧ (∀ rec ∈ outputRecords (runEngine rs), rec.held = 0 ∧ rec.locked = false) := by
  have htxs : (runEngine rs).txs = [] := runFrom_txs rs Engine.new
  have hinv : ∀ c : ClientId,
      ((runEngine rs).accounts c).held = 0 ∧ ((runEngine rs).accounts c).locked = false :=
    runFrom_heldLocked rs Engine.new rfl (fun _ => ⟨rfl, rfl⟩)
  refine ⟨htxs, ?_, ?_⟩
  · intro r hty
    exact process_transaction_no_history _ _ hty _ (by rw [htxs]; rfl)
  · intro rec hrec
    obtain ⟨c, -, rfl⟩ := mem_outputRecords.mp hrec
    exact ⟨(hinv c).1, (hinv c).2⟩

/-- Witness for C2 at the concrete stream `deposit 10.0 / dispute`. -/
theorem C2_history_never_written_witness :
    (runEngine [depositTen, disputeOne]).txs = []
    ∧ (stepEngine (runEngine [depositTen, disputeOne]) disputeOne).accounts
        = (runEngine [depositTen, disputeOne]).accounts :=
  ⟨(C2_history_never_written [depositTen, disputeOne]).1,
    (C2_history_never_written [depositTen, disputeOne]).2.1 disputeOne (Or.inl rfl)⟩

/-- Wrapping is the identity on the raw 64-bit range. -/
theorem wrap64_eq_self (x : Int) (h1 : -(2 ^ 63) ≤ x) (h2 : x < 2 ^ 63) : wrap64 x = x := by
  unfold wrap64
  omega

/-- Claim C6 counterexample: with raw `2 ^ 62` on the account (the
decodable value `2 ^ 48`), a withdrawal of the decodable value
`-2 ^ 48` passes the `available() >= amount` check, but the raw
subtraction `total - amount = 2 ^ 63` overflows the 64-bit raw value
and wraps to `-2 ^ 63`: the total does not decrease by exactly the
amount. -/
theorem C6_withdrawal_overflow :
    parseAmount "281474976710656" = some (2 ^ 62)
    ∧ parseAmount "-281474976710656" = some (-(2 ^ 62))
    ∧ withdrawNegBig.amount ≤ (accountsBig client1).available_wrap
    ∧ (process_transaction_wrap accountsBig withdrawNegBig (fun _ => none) client1).total
        = -(2 ^ 63)
    ∧ (accountsBig client1).total - withdrawNegBig.amount = 2 ^ 63
    ∧ (process_transaction_wrap accountsBig withdrawNegBig (fun _ => none) client1).total
        ≠ (accountsBig client1).total - withdrawNegBig.amount := by
  refine ⟨by decide, by decide, by decide, by decide, by decide, by decide⟩

/-- Claim C6 amended: a withdrawal with `amount > available()` is
rejected with the whole account table unchanged; otherwise — including
the boundary case `amount = available()` — it is accepted and, provided
the raw result `total - amount` stays within the 64-bit raw range of
`I50F14`, exactly `amount` is subtracted from `total`, with `held`,
`locked`, and every other account slot untouched (outside that range the
release-build subtraction wraps). -/
theorem C6_withdrawal_boundary_wrap (accounts : ClientId → Account) (client : ClientId)
    (tx : TransactionId) (amount : Amount) (lookup : TransactionId → Option Amount) :
    (amount > (accounts client).available_wrap →
      process_transaction_wrap accounts
          { tx_type := .Withdrawal, client := client, tx := tx, amount := amount } lookup
        = accounts)
    ∧ (amount ≤ (accounts client).available_wrap →
        -(2 ^ 63) ≤ (accounts client).total - amount →
        (accounts client).total - amount < 2 ^ 63 →
      process_transaction_wrap accounts
          { tx_type := .Withdrawal, client := client, tx := tx, amount := amount } lookup
        = Function.update accounts client
            { accounts client with total := (accounts client).total - amount }) := by
  constructor
  · intro hgt
    unfold process_transaction_wrap
    dsimp only
    rw [if_neg (not_le.mpr hgt)]
  · intro hle h1 h2
    unfold process_transaction_wrap
    dsimp only
    rw [if_pos hle, wrap64_eq_self _ h1 h2]

/-- Witness for the amended C6: the boundary withdrawal
`amount = available = 5` is accepted and subtracts exactly 5. -/
theorem C6_withdrawal_boundary_wrap_witness :
    (5 : Amount) ≤ (accountsFive client1).available_wrap
    ∧ process_transaction_wrap accountsFive
          { tx_type := .Withdrawal, client := client1, tx := 7, amount := 5 } (fun _ => none)
        = Function.update accountsFive client1
            { accountsFive client1 with total := (accountsFive client1).total - 5 } :=
  ⟨by decide,
    (C6_withdrawal_boundary_wrap accountsFive client1 7 5 (fun _ => none)).2
      (by decide) (by decide) (by decide)⟩

/-- Claim C7: a dispute, resolve, or chargeback whose transaction id is
not in the history is a no-op — the account table is bit-identical
before and after, and no error is raised (the function is total). -/
theorem C7_unknown_tx_noop (accounts : ClientId → Account) (record : Transaction)
    (lookup : TransactionId → Option Amount)
    (hty : record.tx_type = .Dispute ∨ record.tx_type = .Resolve ∨ record.tx_type = .Chargeback)
    (hl : lookup record.tx = none) :
    process_transaction accounts record lookup = accounts :=
  process_transaction_no_history accounts record hty lookup hl

/-- Witness for C7: disputing the unknown transaction id 99 against a
table with funds in client 1's account changes nothing. -/
theorem C7_unknown_tx_noop_witness :
    process_transaction accountsFive
        { tx_type := .Dispute, client := client1, tx := 99, amount := 0 } (fun _ => none)
      = accountsFive :=
  C7_unknown_tx_noop accountsFive
    { tx_type := .Dispute, client := client1, tx := 99, amount := 0 } (fun _ => none)
    (Or.inl rfl) rfl

/-- Claim C9: the engine never consults the `locked` flag — processing
any record against the target account with `locked = true` yields the
same resulting `total` and `held` as with `locked = false`. -/
theorem C9_locked_never_consulted (accounts : ClientId → Account) (record : Transaction)
    (lookup : TransactionId → Option Amount) :
    ((process_transaction
        (Function.update accounts record.client
          { accounts record.client with locked := true }) record lookup) record.client).total
      = ((process_transaction
          (Function.update accounts record.client
            { accounts record.client with locked := false }) record lookup) record.client).total
    ∧ ((process_transaction
        (Function.update accounts record.client
          { accounts record.client with locked := true }) record lookup) record.client).held
      = ((process_transaction
          (Function.update accounts record.client
            { accounts record.client with locked := false }) record lookup) record.client).held := by
  obtain ⟨ty, client, tx, amount⟩ := record
  cases ty with
  | Deposit => simp [process_transaction, Function.update_same]
  | Withdrawal =>
      simp only [process_transaction, Account.available, Function.update_same]
      split <;> simp [Function.update_same]
  | Dispute =>
      simp only [process_transaction, Function.update_same]
      cases lookup tx <;> simp [Function.update_same]
  | Resolve =>
      simp only [process_transaction, Function.update_same]
      cases lookup tx <;> simp [Function.update_same]
  | Chargeback =>
      simp only [process_transaction, Function.update_same]
      cases lookup tx <;> simp [Function.update_same]

/-- Claim C1 (code-bug evaluation): after `deposit,1,1,10.0` the
history map is still empty and the deposited amount cannot be looked
up, so the following `dispute,1,1` leaves the held balance at zero —
the deposit arm of `process_transaction` never records `(tx, amount)`
in `Engine.txs`. -/
theorem C1_deposit_not_recorded :
    (runEngine [depositTen, disputeOne]).txs = []
    ∧ get_tx_amount (runEngine [depositTen, disputeOne]).txs 1 = none
    ∧ ((runEngine [depositTen, disputeOne]).accounts client1).held = 0
    ∧ ((runEngine [depositTen, disputeOne]).accounts client1).total = 163840 := by
  refine ⟨rfl, rfl, by decide, by decide⟩

/-- Claim C4 (code-bug evaluation): a dispute row with an absent amount
field fails to decode (`Amount::from_str` rejects the empty string and
the field is not optional), so it is never handed to the engine; a zero
amount decodes fine; and the engine ignores the decoded amount of
dispute, resolve, and chargeback records entirely, resolving via the
history lookup instead. -/
theorem C4_absent_amount_fatal :
    parseAmount "" = none
    ∧ parseTransaction "dispute" "1" "1" "" = none
    ∧ parseTransaction "dispute" "1" "1" "0" = some disputeOne
    ∧ (∀ (accounts : ClientId → Account) (lookup : TransactionId → Option Amount)
        (c : ClientId) (t : TransactionId) (a a' : Amount),
        process_transaction accounts { tx_type := .Dispute, client := c, tx := t, amount := a } lookup
          = process_transaction accounts { tx_type := .Dispute, client := c, tx := t, amount := a' } lookup)
    ∧ (∀ (accounts : ClientId → Account) (lookup : TransactionId → Option Amount)
        (c : ClientId) (t : TransactionId) (a a' : Amount),
        process_transaction accounts { tx_type := .Resolve, client := c, tx := t, amount := a } lookup
          = process_transaction accounts { tx_type := .Resolve, client := c, tx := t, amount := a' } lookup)
    ∧ (∀ (accounts : ClientId → Account) (lookup : TransactionId → Option Amount)
        (c : ClientId) (t : TransactionId) (a a' : Amount),
        process_transaction accounts { tx_type := .Chargeback, client := c, tx := t, amount := a } lookup
          = process_transaction accounts { tx_type := .Chargeback, client := c, tx := t, amount := a' } lookup) := by
  refine ⟨by decide, by decide, by decide, ?_, ?_, ?_⟩ <;> (intros; rfl)

/-- Claim C5 counterexample: the decimal strings `0.0001` and `0.0002`
decode to the raw values 2 and 3 (nearest multiples of `2 ^ -14`), so
the sum of two parsed copies of `0.0001` is not the parsed `0.0002`:
four fractional decimal digits are not represented exactly. -/
theorem C5_four_decimals_inexact :
    parseAmount "0.0001" = some 2
    ∧ parseAmount "0.0002" = some 3
    ∧ (2 : Amount) + 2 ≠ 3 := by
  refine ⟨by decide, by decide, by decide⟩

/-- The value `roundHalfEven a b` is a nearest integer to `a / b`: twice the
rounded value times `b` stays within `b` of twice `a`. -/
theorem roundHalfEven_nearest (a b : Nat) (hb : 0 < b) :
    2 * roundHalfEven a b * b ≤ 2 * a + b ∧ 2 * a ≤ 2 * roundHalfEven a b * b + b := by
  have hr : a % b < b := Nat.mod_lt _ hb
  have hd : b * (a / b) + a % b = a := Nat.div_add_mod a b
  simp only [roundHalfEven]
  revert hd hr
  generalize a / b = q
  generalize a % b = r
  intro hr hd
  split
  · constructor <;> linarith
  · split
    · constructor <;> linarith
    · split <;> (constructor <;> linarith)

/-- Claim C5 amended: `Amount` is binary fixed point with 14 fractional
bits; its raw-value addition, subtraction, and comparison are exact, and
decoding rounds a decimal string to the *nearest* representable multiple
of `2 ^ -14` (ties to even) — so multiples of `2 ^ -14` such as `0.25`
decode exactly, while a four-decimal value such as `0.0001` is decoded
inexactly to `2 * 2 ^ -14`. -/
theorem C5_amended_nearest_rounding :
    (∀ a b : Nat, 0 < b →
      2 * roundHalfEven a b * b ≤ 2 * a + b ∧ 2 * a ≤ 2 * roundHalfEven a b * b + b)
    ∧ parseAmount "0.25" = some (2 ^ 12)
    ∧ parseAmount "0.0001" = some 2 :=
  ⟨roundHalfEven_nearest, by decide, by decide⟩

/-- Witness for the amended C5 at `a = 16384`, `b = 10000` (the scaled
numerator and denominator of `0.0001`). -/
theorem C5_amended_nearest_rounding_witness :
    0 < 10000
    ∧ (2 * roundHalfEven 16384 10000 * 10000 ≤ 2 * 16384 + 10000
       ∧ 2 * 16384 ≤ 2 * roundHalfEven 16384 10000 * 10000 + 10000) :=
  ⟨by decide, C5_amended_nearest_rounding.1 16384 10000 (by decide)⟩

/-- Claim C8: after processing any stream, every account satisfies
`available = total - held` (available is derived on demand, never
stored), and so does every emitted output row. -/
theorem C8_available_derived (rs : List Transaction) :
    (∀ c : ClientId,
      ((runEngine rs).accounts c).available
        = ((runEngine rs).accounts c).total - ((runEngine rs).accounts c).held)
    ∧ (∀ rec ∈ outputRecords (runEngine rs), rec.available = rec.total - rec.held) := by
  refine ⟨fun _ => rfl, ?_⟩
  intro rec hrec
  obtain ⟨c, -, rfl⟩ := mem_outputRecords.mp hrec
  rfl

/-- Witness for C8: the output row of client 1 after a single deposit
satisfies the derived-available equation. -/
theorem C8_available_derived_witness :
    (OutputRecord.from_account ((runEngine [depositTen]).accounts client1) client1).available
      = (OutputRecord.from_account ((runEngine [depositTen]).accounts client1) client1).total
        - (OutputRecord.from_account ((runEngine [depositTen]).accounts client1) client1).held := by
  have hmem : OutputRecord.from_account ((runEngine [depositTen]).accounts client1) client1
      ∈ outputRecords (runEngine [depositTen]) :=
    mem_outputRecords.mpr ⟨client1, by decide, rfl⟩
  exact (C8_available_derived [depositTen]).2 _ hmem

/-- Claim C10: an output row is emitted exactly for the clients whose
final account is not in the default all-zero unlocked state; every row
is the `from_account` projection of that client's account; and a client
id never referenced in the input keeps the default account and gets no
row. -/
theorem C10_output_iff_touched (rs : List Transaction) (c : ClientId) :
    (((runEngine rs).accounts c).unused = false ↔
      OutputRecord.from_account ((runEngine rs).accounts c) c ∈ outputRecords (runEngine rs))
    ∧ (∀ rec ∈ outputRecords (runEngine rs),
        rec = OutputRecord.from_account ((runEngine rs).accounts rec.client) rec.client)
    ∧ ((∀ r ∈ rs, r.client ≠ c) →
        (runEngine rs).accounts c = defaultAccount
        ∧ ∀ rec ∈ outputRecords (runEngine rs), rec.client ≠ c) := by
  refine ⟨⟨fun h => mem_outputRecords.mpr ⟨c, h, rfl⟩, fun h => ?_⟩, ?_, ?_⟩
  · obtain ⟨c', hu, heq⟩ := mem_outputRecords.mp h
    have hc : c = c' := congrArg OutputRecord.client heq
    rw [hc]
    exact hu
  · intro rec hrec
    obtain ⟨c', hu, rfl⟩ := mem_outputRecords.mp hrec
    rfl
  · intro huntouched
    have hacc : (runEngine rs).accounts c = defaultAccount := by
      rw [runEngine, runFrom_client_ne rs Engine.new huntouched]
      rfl
    refine ⟨hacc, ?_⟩
    intro rec hrec hceq
    obtain ⟨c', hu, rfl⟩ := mem_outputRecords.mp hrec
    have hc : c' = c := hceq
    rw [hc, hacc] at hu
    exact absurd hu (by decide)

/-- Witness for C10: client 2 never appears in `[depositTen]`, keeps the
default account, and gets no output row. -/
theorem C10_output_iff_touched_witness :
    (runEngine [depositTen]).accounts client2 = defaultAccount
    ∧ ∀ rec ∈ outputRecords (runEngine [depositTen]), rec.client ≠ client2 :=
  (C10_output_iff_touched [depositTen] client2).2.2 (by decide)

/-- Claim C3 (code-bug evaluation): on the raw stream `deposit,1,1,10.0
/ dispute,1,1, / chargeback,1,1,` the program aborts with a decode
error on the empty amount field and emits nothing; and even on the
decoded records with a zero amount substituted, the dispute and the
chargeback are no-ops (empty history), so the single output row is
available 10.0, held 0, total 10.0, locked false — not the all-zero
locked row the claim states. -/
theorem C3_scenario_diverges :
    runProgram c3Rows = none
    ∧ (runEngine c3Records).accounts client1
        = { locked := false, total := 163840, held := 0 }
    ∧ outputRecords (runEngine c3Records)
        = [{ client := client1, available := 163840, held := 0, total := 163840, locked := false }] := by
  refine ⟨by decide, by decide, ?_⟩
  have hothers : ∀ c' : ClientId, c' ≠ client1 →
      ((runEngine c3Records).accounts c').unused = true := by
    intro c' hc'
    have huntouched : ∀ r ∈ c3Records, r.client ≠ c' := by
      intro r hr
      simp only [c3Records, List.mem_cons, List.not_mem_nil, or_false] at hr
      rcases hr with rfl | rfl | rfl <;> exact Ne.symm hc'
    have : (runEngine c3Records).accounts c' = defaultAccount := by
      rw [runEngine, runFrom_client_ne c3Records Engine.new huntouched]
      rfl
    rw [this]
    rfl
  rw [outputRecords_single (runEngine c3Records) client1 (by decide) hothers]
  decide
